import Mathlib

/-!
Verification of the `ffind` traversal-and-filter engine (`src/lib.rs`).

The Rust code is shallowly embedded: the filesystem that `std::fs` and
`std::path` queries run against is abstracted as a structure of oracles
(`FileSystem`), paths carry a flag recording whether the underlying OS
string is valid UTF-8, and the breadth-first traversal of `Finder::find` /
`Finder::print_find` is written level by level, exactly as the source's
`while !queue.is_empty() { for _ in 0..queue.len() { ... } curr_depth += 1 }`
loop processes it.  A terminal operation's result is an `Outcome`: `ok`,
`err` (an `io::Error` value) or `panicked` (a failed `unwrap`).
-/

namespace FFind

/-- Fatal error values produced by the terminal operations: the `NotFound`
`io::Error` built for a missing root, and directory-enumeration errors
propagated by the question-mark operator. -/
inductive FindError where
  | notFound : String → FindError
  | ioErr : String → FindError
  deriving DecidableEq, Repr

/-- A filesystem path as handed around by the traversal (Rust `PathBuf`):
its textual form plus a flag recording whether the underlying OS string is
valid UTF-8 (`OsString::into_string` succeeds exactly in that case). -/
structure OsPath where
  name : String
  validUtf8 : Bool
  deriving DecidableEq, Repr

/-- Models `path.into_os_string().into_string()`: `some` iff valid UTF-8. -/
def OsPath.into_string (p : OsPath) : Option String :=
  if p.validUtf8 then some p.name else none

/-- Result of a terminal operation: `Ok` value, `Err` (an `io::Error`), or a
panic (an `unwrap` failure, which aborts instead of returning a `Result`). -/
inductive Outcome (α : Type) where
  | ok : α → Outcome α
  | err : FindError → Outcome α
  | panicked : Outcome α
  deriving DecidableEq, Repr

def Outcome.map {α β : Type} (f : α → β) : Outcome α → Outcome β
  | .ok a => .ok (f a)
  | .err e => .err e
  | .panicked => .panicked

/-- True exactly on `err` results (an explicit failure result). -/
def Outcome.isErr {α : Type} : Outcome α → Bool
  | .err _ => true
  | _ => false

/-- The filesystem the engine runs against, abstracted as the oracle of the
`std::fs` / `Path` queries the source performs: `exists`, `is_dir`,
`is_file`, `read_dir` (children enumeration, which may fail with an I/O
error) and `metadata` (file size, which may fail). -/
structure FileSystem where
  pathExists : OsPath → Bool
  is_dir : OsPath → Bool
  is_file : OsPath → Bool
  read_dir : OsPath → Except String (List OsPath)
  metadata : String → Option Nat

/-- `struct Finder { directory: String, filters: Vec<Box<dyn Fn(&str) -> bool>> }` -/
structure Finder where
  directory : String
  filters : List (String → Bool)

/-- `Finder::new` — empty predicate chain, no filesystem access. -/
def Finder.new (dir : String) : Finder :=
  { directory := dir, filters := [] }

/-- `Finder::filter` — pushes the predicate onto the chain (lazy). -/
def Finder.filter (self : Finder) (predicate : String → Bool) : Finder :=
  { self with filters := self.filters ++ [predicate] }

/-- `Finder::meets_filter_criteria` — `self.filters.iter().all(|f| f(file_str))`. -/
def Finder.meets_filter_criteria (self : Finder) (file_str : String) : Bool :=
  self.filters.all (fun f => f file_str)

/-- One pass of the inner `for _ in 0..queue.len()` loop of `Finder::find`:
processes exactly the entries of the current BFS level.  `expand` is the
per-level value of the source's `curr_depth <= depth` test.  Returns the
matching file paths emitted during the level together with the children
enqueued for the next level, or the first enumeration error / `unwrap`
panic encountered, which aborts immediately. -/
def levelStep (fs : FileSystem) (F : Finder) (expand : Bool) :
    List OsPath → Outcome (List String × List OsPath)
  | [] => .ok ([], [])
  | path :: rest =>
    if fs.is_dir path && expand then
      match fs.read_dir path with
      | .error e => .err (.ioErr e)
      | .ok children =>
        match levelStep fs F expand rest with
        | .ok (files, queue) => .ok (files, children ++ queue)
        | .err e => .err e
        | .panicked => .panicked
    else if fs.is_file path then
      match path.into_string with
      | none => .panicked
      | some path_string =>
        match levelStep fs F expand rest with
        | .ok (files, queue) =>
          .ok ((if F.meets_filter_criteria path_string then [path_string] else []) ++ files,
               queue)
        | .err e => .err e
        | .panicked => .panicked
    else
      levelStep fs F expand rest

/-- The outer `while !queue.is_empty()` loop of `Finder::find`, level by
level.  `curr` is the source's `curr_depth`; `levels` counts the levels
still to run before `curr` exceeds `depth + 1` — the loop is entered with
`curr = 0` and `levels = depth + 1`, so `levels = 0` exactly when
`curr = depth + 1`.  At that point no directory is expanded (the source's
`curr_depth <= depth` test fails), hence nothing is enqueued
(`levelStep_no_expand` below) and the queue drains, which is where the
source loop exits. -/
def goAux (fs : FileSystem) (F : Finder) (depth : Nat) :
    Nat → Nat → List OsPath → Outcome (List String)
  | _, _, [] => .ok []
  | 0, curr, queue =>
    match levelStep fs F (decide (curr ≤ depth)) queue with
    | .ok (files, _) => .ok files
    | .err e => .err e
    | .panicked => .panicked
  | levels + 1, curr, queue =>
    match levelStep fs F (decide (curr ≤ depth)) queue with
    | .ok (files, nextQueue) =>
      match goAux fs F depth levels (curr + 1) nextQueue with
      | .ok more => .ok (files ++ more)
      | .err e => .err e
      | .panicked => .panicked
    | .err e => .err e
    | .panicked => .panicked

/-- `Finder::find` — terminal operator: validate the root, then run the BFS
and collect the matching paths. -/
def Finder.find (fs : FileSystem) (self : Finder) (depth : Nat) :
    Outcome (List String) :=
  let root : OsPath := ⟨self.directory, true⟩
  if !fs.pathExists root then
    .err (.notFound ("Root directory " ++ self.directory ++ " does not exists."))
  else
    goAux fs self depth (depth + 1) 0 [root]

/-- Inner level loop of `Finder::print_find`: identical to `levelStep`
except that a matching file is emitted to standard output as the line
`matching file: <path>` instead of being pushed onto a result vector; the
emitted lines are collected as the model of standard output. -/
def levelStepP (fs : FileSystem) (F : Finder) (expand : Bool) :
    List OsPath → Outcome (List String × List OsPath)
  | [] => .ok ([], [])
  | path :: rest =>
    if fs.is_dir path && expand then
      match fs.read_dir path with
      | .error e => .err (.ioErr e)
      | .ok children =>
        match levelStepP fs F expand rest with
        | .ok (lines, queue) => .ok (lines, children ++ queue)
        | .err e => .err e
        | .panicked => .panicked
    else if fs.is_file path then
      match path.into_string with
      | none => .panicked
      | some path_string =>
        match levelStepP fs F expand rest with
        | .ok (lines, queue) =>
          .ok ((if F.meets_filter_criteria path_string
                then ["matching file: " ++ path_string] else []) ++ lines,
               queue)
        | .err e => .err e
        | .panicked => .panicked
    else
      levelStepP fs F expand rest

/-- Outer loop of `Finder::print_find`, mirroring `goAux`. -/
def goAuxP (fs : FileSystem) (F : Finder) (depth : Nat) :
    Nat → Nat → List OsPath → Outcome (List String)
  | _, _, [] => .ok []
  | 0, curr, queue =>
    match levelStepP fs F (decide (curr ≤ depth)) queue with
    | .ok (lines, _) => .ok lines
    | .err e => .err e
    | .panicked => .panicked
  | levels + 1, curr, queue =>
    match levelStepP fs F (decide (curr ≤ depth)) queue with
    | .ok (lines, nextQueue) =>
      match goAuxP fs F depth levels (curr + 1) nextQueue with
      | .ok more => .ok (lines ++ more)
      | .err e => .err e
      | .panicked => .panicked
    | .err e => .err e
    | .panicked => .panicked

/-- `Finder::print_find` — same traversal as `find`; its `Ok(())` success
is modelled as the list of lines written to standard output. -/
def Finder.print_find (fs : FileSystem) (self : Finder) (depth : Nat) :
    Outcome (List String) :=
  let root : OsPath := ⟨self.directory, true⟩
  if !fs.pathExists root then
    .err (.notFound ("Root directory " ++ self.directory ++ " does not exists."))
  else
    goAuxP fs self depth (depth + 1) 0 [root]

/-- The closure pushed by `Finder::size_less_than_or_eq`: stat the file and
keep it iff its size is at most `bytes`; a failed stat is `false`. -/
def sizePredLe (fs : FileSystem) (bytes : Nat) : String → Bool := fun s =>
  match fs.metadata s with
  | some len => decide (len ≤ bytes)
  | none => false

/-- The closure pushed by `Finder::size_greater_than_or_eq`: stat the file
and keep it iff its size is at least `bytes`; a failed stat is `false`. -/
def sizePredGe (fs : FileSystem) (bytes : Nat) : String → Bool := fun s =>
  match fs.metadata s with
  | some len => decide (bytes ≤ len)
  | none => false

/-- `Finder::size_less_than_or_eq`. -/
def Finder.size_less_than_or_eq (self : Finder) (fs : FileSystem) (bytes : Nat) : Finder :=
  self.filter (sizePredLe fs bytes)

/-- `Finder::size_greater_than_or_eq`. -/
def Finder.size_greater_than_or_eq (self : Finder) (fs : FileSystem) (bytes : Nat) : Finder :=
  self.filter (sizePredGe fs bytes)

/-- `Finder::has_extension` — case-sensitive suffix test on the path string. -/
def Finder.has_extension (self : Finder) (ext : String) : Finder :=
  self.filter (fun s => s.endsWith ext)

/-- `Finder::has_extension_case_insensitive` — both sides lower-cased. -/
def Finder.has_extension_case_insensitive (self : Finder) (ext : String) : Finder :=
  self.filter (fun s => s.toLower.endsWith ext.toLower)

/-- Split a character list on the path separator; `acc` holds the current
component reversed. -/
def splitSlash (acc : List Char) : List Char → List (List Char)
  | [] => [acc.reverse]
  | c :: rest => if c = '/' then acc.reverse :: splitSlash [] rest else splitSlash (c :: acc) rest

/-- Models `Path::file_name` on a UTF-8 path: the final normal component of
the path; `none` when the path has no normal component or ends in a
parent-directory component. -/
def file_name (s : String) : Option String :=
  let comps := ((splitSlash [] s.toList).map (fun l => String.mk l)).filter
    (fun c => c != "" && c != ".")
  match comps.getLast? with
  | none => none
  | some last => if last = ".." then none else some last

/-- All contiguous substrings of a string (with repetitions). -/
def substrings (s : String) : List String :=
  ((s.toList.tails).flatMap (fun t => t.inits)).map String.mk

/-- Model of `regex::Regex`, the compiled pattern of the external `regex`
crate, abstracted by the exact-match predicate the pattern denotes. -/
structure Regex where
  matchExact : String → Bool

/-- Model of `Regex::is_match`, from the regex crate's documented
semantics: true iff the pattern matches somewhere inside the haystack,
i.e. matches some contiguous substring exactly — an unanchored, partial
match; a full-string match is not required. -/
def Regex.is_match (re : Regex) (hay : String) : Bool :=
  (substrings hay).any re.matchExact

/-- The closure pushed by `Finder::matches_regex`: take the file name of
the path (`PathBuf::from(s).file_name()`) and test the compiled pattern
against it — not against the full path; `false` when the path has no file
name.  (The inner `OsStr::to_str` always succeeds here because `s` is
already a Rust `String`.) -/
def regexFilePred (re : Regex) : String → Bool := fun s =>
  match file_name s with
  | some name => re.is_match name
  | none => false

/-- `Finder::matches_regex`: compiles the pattern eagerly —
`Regex::new(pattern).unwrap()`, which panics on a compile error — and
pushes the file-name predicate.  `compile` models `Regex::new` of the
external regex crate: `none` for a pattern that fails to compile. -/
def Finder.matches_regex (self : Finder) (pattern : String)
    (compile : String → Option Regex) : Outcome Finder :=
  match compile pattern with
  | none => .panicked
  | some re => .ok (self.filter (regexFilePred re))

/-- Shorthand for a valid-UTF-8 path. -/
def vpath (s : String) : OsPath := ⟨s, true⟩

/-- Concrete filesystem for the depth-boundary scenario of §8 P2: `root`
contains the file `root/f.txt` and the directory `root/a`; `root/a`
contains the directory `root/a/b` and the file `root/a/g.txt`; `root/a/b`
contains the file `root/a/b/file.txt`. -/
def fsC1 : FileSystem where
  pathExists := fun p =>
    ["root", "root/a", "root/f.txt", "root/a/b", "root/a/g.txt",
     "root/a/b/file.txt"].contains p.name && p.validUtf8
  is_dir := fun p => ["root", "root/a", "root/a/b"].contains p.name && p.validUtf8
  is_file := fun p =>
    ["root/f.txt", "root/a/g.txt", "root/a/b/file.txt"].contains p.name && p.validUtf8
  read_dir := fun p =>
    if p = vpath "root" then .ok [vpath "root/a", vpath "root/f.txt"]
    else if p = vpath "root/a" then .ok [vpath "root/a/b", vpath "root/a/g.txt"]
    else if p = vpath "root/a/b" then .ok [vpath "root/a/b/file.txt"]
    else .error "not a directory"
  metadata := fun _ => none

/-- Concrete filesystem for the abort-on-enumeration-error scenario: `root`
contains the file `root/good.txt`, the unreadable directory `root/bad`
(its enumeration fails with a permission error) and the file
`root/late.txt`; stat fails on `root/good.txt` and reports 50 bytes for
`root/late.txt`. -/
def fsC4 : FileSystem where
  pathExists := fun p =>
    ["root", "root/good.txt", "root/bad", "root/late.txt"].contains p.name && p.validUtf8
  is_dir := fun p => ["root", "root/bad"].contains p.name && p.validUtf8
  is_file := fun p => ["root/good.txt", "root/late.txt"].contains p.name && p.validUtf8
  read_dir := fun p =>
    if p = vpath "root" then
      .ok [vpath "root/good.txt", vpath "root/bad", vpath "root/late.txt"]
    else if p = vpath "root/bad" then .error "permission denied"
    else .error "not a directory"
  metadata := fun s => if s = "root/late.txt" then some 50 else none

/-- Concrete filesystem whose root directory contains a single file whose
OS-level name is not valid UTF-8. -/
def fsC9 : FileSystem where
  pathExists := fun p => p.name = "root" || p.name = "root/weird"
  is_dir := fun p => p = vpath "root"
  is_file := fun p => p.name = "root/weird"
  read_dir := fun p =>
    if p = vpath "root" then .ok [⟨"root/weird", false⟩] else .error "not a directory"
  metadata := fun _ => none

/-- Concrete filesystem for the predicate-conjunction witness: `r` contains
the files `r/xa`, `r/x.b` and `r/a.c`. -/
def fsW : FileSystem where
  pathExists := fun p => ["r", "r/xa", "r/x.b", "r/a.c"].contains p.name && p.validUtf8
  is_dir := fun p => p = vpath "r"
  is_file := fun p => ["r/xa", "r/x.b", "r/a.c"].contains p.name && p.validUtf8
  read_dir := fun p =>
    if p = vpath "r" then .ok [vpath "r/xa", vpath "r/x.b", vpath "r/a.c"]
    else .error "not a directory"
  metadata := fun _ => none

/-- Concrete filesystem whose root `f.txt` exists and is a regular file,
not a directory. -/
def fsC10 : FileSystem where
  pathExists := fun p => p = vpath "f.txt"
  is_dir := fun _ => false
  is_file := fun p => p = vpath "f.txt"
  read_dir := fun _ => .error "not a directory"
  metadata := fun _ => none

/-- Concrete filesystem on which no path exists at all. -/
def fsEmpty : FileSystem where
  pathExists := fun _ => false
  is_dir := fun _ => false
  is_file := fun _ => false
  read_dir := fun _ => .error "no such directory"
  metadata := fun _ => none

/-- Concrete filesystem for the size-predicate witness: stat reports 5
bytes for `a` and fails for `b`. -/
def fsC7 : FileSystem where
  pathExists := fun _ => false
  is_dir := fun _ => false
  is_file := fun _ => false
  read_dir := fun _ => .error "no such directory"
  metadata := fun s => if s = "a" then some 5 else none

/-- When the level does not expand directories (the source's
`curr_depth <= depth` test fails), nothing is enqueued: a successful
non-expanding level leaves an empty queue, so the source's loop exits right
after it.  This is the fact that lets `goAux` run `depth + 2` levels. -/
theorem levelStep_no_expand (fs : FileSystem) (F : Finder) :
    ∀ q files nq, levelStep fs F false q = .ok (files, nq) → nq = [] := by
  intro q
  induction q with
  | nil =>
    intro files nq h
    simp only [levelStep, Outcome.ok.injEq, Prod.mk.injEq] at h
    exact h.2.symm
  | cons path rest ih =>
    intro files nq h
    simp only [levelStep, Bool.and_false, Bool.false_eq_true, if_false] at h
    by_cases hf : fs.is_file path = true
    · rw [if_pos hf] at h
      cases hs : path.into_string with
      | none => rw [hs] at h; cases h
      | some s =>
        rw [hs] at h
        cases hr : levelStep fs F false rest with
        | ok pr =>
          rw [hr] at h
          cases h
          exact ih pr.1 pr.2 (by rw [hr])
        | err e => rw [hr] at h; cases h
        | panicked => rw [hr] at h; cases h
    · rw [if_neg hf] at h
      exact ih files nq h

/-- The level loop of `print_find` emits exactly the entries the level loop
of `find` collects, each formatted as a `matching file:` line, and builds
the same next-level queue, with identical error and panic behaviour. -/
theorem levelStepP_eq (fs : FileSystem) (F : Finder) (e : Bool) : ∀ q,
    levelStepP fs F e q =
      Outcome.map (fun pr => (pr.1.map (fun s => "matching file: " ++ s), pr.2))
        (levelStep fs F e q) := by
  intro q
  induction q with
  | nil => rfl
  | cons path rest ih =>
    simp only [levelStepP, levelStep]
    by_cases hd : (fs.is_dir path && e) = true
    · rw [if_pos hd, if_pos hd]
      cases hr : fs.read_dir path with
      | error msg => rfl
      | ok children =>
        rw [ih]
        cases hs : levelStep fs F e rest with
        | ok pr => rfl
        | err msg => rfl
        | panicked => rfl
    · rw [if_neg hd, if_neg hd]
      by_cases hf : fs.is_file path = true
      · rw [if_pos hf, if_pos hf]
        cases hs : path.into_string with
        | none => rfl
        | some s =>
          rw [ih]
          cases hrest : levelStep fs F e rest with
          | ok pr =>
            simp only [Outcome.map, Outcome.ok.injEq, Prod.mk.injEq, List.map_append]
            constructor
            · by_cases hm : F.meets_filter_criteria s = true
              · rw [if_pos hm, if_pos hm]; rfl
              · rw [if_neg hm, if_neg hm]; rfl
            · trivial
          | err msg => rfl
          | panicked => rfl
      · rw [if_neg hf, if_neg hf]
        exact ih

/-- The outer loop of `print_find` produces exactly the formatted lines of
the outer loop of `find`, with identical error and panic behaviour. -/
theorem goAuxP_eq (fs : FileSystem) (F : Finder) (depth : Nat) :
    ∀ levels curr q,
      goAuxP fs F depth levels curr q =
        Outcome.map (List.map (fun s => "matching file: " ++ s))
          (goAux fs F depth levels curr q) := by
  intro levels
  induction levels with
  | zero =>
    intro curr q
    cases q with
    | nil => rfl
    | cons path rest =>
      simp only [goAuxP, goAux, levelStepP_eq]
      cases hs : levelStep fs F (decide (curr ≤ depth)) (path :: rest) with
      | ok pr => rfl
      | err e => rfl
      | panicked => rfl
  | succ levels ih =>
    intro curr q
    cases q with
    | nil => rfl
    | cons path rest =>
      simp only [goAuxP, goAux, levelStepP_eq]
      cases hs : levelStep fs F (decide (curr ≤ depth)) (path :: rest) with
      | ok pr =>
        simp only [Outcome.map, ih]
        cases hg : goAux fs F depth levels (curr + 1) pr.2 with
        | ok more => simp only [Outcome.map, List.map_append]
        | err e => rfl
        | panicked => rfl
      | err e => rfl
      | panicked => rfl

/-- `print_find` is `find` with every returned path formatted as a
`matching file:` line on standard output: same traversal, same order, same
errors, same panics. -/
theorem print_find_eq_find (fs : FileSystem) (F : Finder) (depth : Nat) :
    Finder.print_find fs F depth =
      Outcome.map (List.map (fun s => "matching file: " ++ s))
        (Finder.find fs F depth) := by
  simp only [Finder.print_find, Finder.find]
  by_cases h : fs.pathExists ⟨F.directory, true⟩ = true
  · simp only [h, Bool.not_true, Bool.false_eq_true, if_false]
    exact goAuxP_eq fs F depth (depth + 1) 0 [⟨F.directory, true⟩]
  · rw [Bool.not_eq_true] at h
    simp only [h, Bool.not_false, if_true]
    rfl

/-- A level run with a predicate chain collects exactly the files the same
level collects with an empty chain, restricted to those passing
`meets_filter_criteria`; the queue, errors and panics are unaffected by the
chain. -/
theorem levelStep_filters (fs : FileSystem) (F : Finder) (e : Bool) : ∀ q,
    levelStep fs F e q =
      Outcome.map (fun pr => (pr.1.filter F.meets_filter_criteria, pr.2))
        (levelStep fs (Finder.new F.directory) e q) := by
  intro q
  induction q with
  | nil => rfl
  | cons path rest ih =>
    simp only [levelStep]
    by_cases hd : (fs.is_dir path && e) = true
    · rw [if_pos hd, if_pos hd]
      cases hr : fs.read_dir path with
      | error msg => rfl
      | ok children =>
        rw [ih]
        cases hs : levelStep fs (Finder.new F.directory) e rest with
        | ok pr => rfl
        | err msg => rfl
        | panicked => rfl
    · rw [if_neg hd, if_neg hd]
      by_cases hf : fs.is_file path = true
      · rw [if_pos hf, if_pos hf]
        cases hs : path.into_string with
        | none => rfl
        | some s =>
          rw [ih]
          cases hrest : levelStep fs (Finder.new F.directory) e rest with
          | ok pr =>
            have hbase : (Finder.new F.directory).meets_filter_criteria s = true := rfl
            by_cases hm : F.meets_filter_criteria s = true
            · simp [Outcome.map, hbase, hm, List.filter_append, List.filter_cons]
            · simp [Outcome.map, hbase, hm, List.filter_append, List.filter_cons]
          | err msg => rfl
          | panicked => rfl
      · rw [if_neg hf, if_neg hf]
        exact ih

/-- The outer loop with a predicate chain returns the files of the outer
loop with an empty chain, filtered through the chain. -/
theorem goAux_filters (fs : FileSystem) (F : Finder) (depth : Nat) :
    ∀ levels curr q,
      goAux fs F depth levels curr q =
        Outcome.map (List.filter F.meets_filter_criteria)
          (goAux fs (Finder.new F.directory) depth levels curr q) := by
  intro levels
  induction levels with
  | zero =>
    intro curr q
    cases q with
    | nil => rfl
    | cons path rest =>
      simp only [goAux]
      rw [levelStep_filters fs F]
      cases hs : levelStep fs (Finder.new F.directory) (decide (curr ≤ depth)) (path :: rest) with
      | ok pr => rfl
      | err e => rfl
      | panicked => rfl
  | succ levels ih =>
    intro curr q
    cases q with
    | nil => rfl
    | cons path rest =>
      simp only [goAux]
      rw [levelStep_filters fs F]
      cases hs : levelStep fs (Finder.new F.directory) (decide (curr ≤ depth)) (path :: rest) with
      | ok pr =>
        cases pr with
        | mk files nq =>
          simp only [Outcome.map]
          rw [ih (curr + 1) nq]
          cases hg : goAux fs (Finder.new F.directory) depth levels (curr + 1) nq with
          | ok more => simp [Outcome.map, List.filter_append]
          | err e => rfl
          | panicked => rfl
      | err e => rfl
      | panicked => rfl

/-- `find` with a predicate chain is `find` with an empty chain filtered
through the conjunction of the chain — the chain only ever restricts the
file list and touches neither the traversal, its order, nor its errors. -/
theorem find_filter_decomp (fs : FileSystem) (F : Finder) (depth : Nat) :
    Finder.find fs F depth =
      Outcome.map (List.filter F.meets_filter_criteria)
        (Finder.find fs (Finder.new F.directory) depth) := by
  simp only [Finder.find, Finder.new]
  by_cases h : fs.pathExists ⟨F.directory, true⟩ = true
  · simp only [h, Bool.not_true, Bool.false_eq_true, if_false]
    exact goAux_filters fs F depth (depth + 1) 0 [⟨F.directory, true⟩]
  · rw [Bool.not_eq_true] at h
    simp only [h, Bool.not_false, if_true]
    rfl

/-- When every file of the filesystem has a valid-UTF-8 path, the level
loop never reaches the `unwrap` panic. -/
theorem levelStep_no_panic (fs : FileSystem) (F : Finder) (e : Bool)
    (hv : ∀ p : OsPath, fs.is_file p = true → p.validUtf8 = true) :
    ∀ q, levelStep fs F e q ≠ .panicked := by
  intro q
  induction q with
  | nil => intro h; cases h
  | cons path rest ih =>
    intro h
    simp only [levelStep] at h
    by_cases hd : (fs.is_dir path && e) = true
    · rw [if_pos hd] at h
      cases hr : fs.read_dir path with
      | error msg => rw [hr] at h; cases h
      | ok children =>
        rw [hr] at h
        cases hs : levelStep fs F e rest with
        | ok pr => rw [hs] at h; cases h
        | err msg => rw [hs] at h; cases h
        | panicked => exact ih hs
    · rw [if_neg hd] at h
      by_cases hf : fs.is_file path = true
      · rw [if_pos hf] at h
        have : path.into_string = some path.name := by
          simp [OsPath.into_string, hv path hf]
        rw [this] at h
        cases hs : levelStep fs F e rest with
        | ok pr => rw [hs] at h; cases h
        | err msg => rw [hs] at h; cases h
        | panicked => exact ih hs
      · rw [if_neg hf] at h
        exact ih h

/-- When every file of the filesystem has a valid-UTF-8 path, the outer
loop never panics. -/
theorem goAux_no_panic (fs : FileSystem) (F : Finder) (depth : Nat)
    (hv : ∀ p : OsPath, fs.is_file p = true → p.validUtf8 = true) :
    ∀ levels curr q, goAux fs F depth levels curr q ≠ .panicked := by
  intro levels
  induction levels with
  | zero =>
    intro curr q h
    cases q with
    | nil => cases h
    | cons path rest =>
      simp only [goAux] at h
      split at h
      next files x hs => cases h
      next e hs => cases h
      next hs => exact levelStep_no_panic fs F _ hv _ hs
  | succ levels ih =>
    intro curr q h
    cases q with
    | nil => cases h
    | cons path rest =>
      simp only [goAux] at h
      split at h
      next files nq hs =>
        split at h
        next more hg => cases h
        next e hg => cases h
        next hg => exact ih (curr + 1) nq hg
      next e hs => cases h
      next hs => exact levelStep_no_panic fs F _ hv _ hs

/-- C1: depth boundary of the traversal.  On the tree
`root/{f.txt, a/{g.txt, b/file.txt}}`, `find 0` returns only root's direct
file child `root/f.txt` (so it does not include `root/a/b/file.txt`, and
`root/a` is not expanded), and `find 1` additionally returns exactly the
file one level deeper, `root/a/g.txt` (still not `root/a/b/file.txt`).  In
general, a directory dequeued at level `c` with bound `m` is expanded —
its `read_dir` children are enqueued — iff `c ≤ m`, and is dropped with no
children enqueued otherwise. -/
theorem C1_depth_boundary :
    (Finder.find fsC1 (Finder.new "root") 0 = .ok ["root/f.txt"]) ∧
    (Finder.find fsC1 (Finder.new "root") 1 = .ok ["root/f.txt", "root/a/g.txt"]) ∧
    (∀ (fs : FileSystem) (F : Finder) (c m : Nat) (d : OsPath) (rest ch : List OsPath),
      fs.is_dir d = true → fs.is_file d = false → fs.read_dir d = .ok ch →
      ((c ≤ m →
        levelStep fs F (decide (c ≤ m)) (d :: rest) =
          Outcome.map (fun pr => (pr.1, ch ++ pr.2))
            (levelStep fs F (decide (c ≤ m)) rest)) ∧
       (¬ c ≤ m →
        levelStep fs F (decide (c ≤ m)) (d :: rest) =
          levelStep fs F (decide (c ≤ m)) rest))) := by
  refine ⟨by decide, by decide, ?_⟩
  intro fs F c m d rest ch hdir hfile hread
  constructor
  · intro hcm
    rw [decide_eq_true hcm]
    simp only [levelStep, hdir, Bool.and_self, if_true, hread]
    cases hr : levelStep fs F true rest with
    | ok pr => rfl
    | err e => rfl
    | panicked => rfl
  · intro hcm
    rw [decide_eq_false hcm]
    simp only [levelStep, hdir, Bool.and_false, Bool.false_eq_true, if_false, hfile]

/-- Witness for C1: in the concrete tree, the directory `root/a` dequeued
at level 1 with bound 1 is expanded — its two children are enqueued. -/
theorem C1_depth_boundary_witness :
    levelStep fsC1 (Finder.new "root") (decide ((1 : Nat) ≤ 1)) [vpath "root/a"] =
      Outcome.map (fun pr => (pr.1, [vpath "root/a/b", vpath "root/a/g.txt"] ++ pr.2))
        (levelStep fsC1 (Finder.new "root") (decide ((1 : Nat) ≤ 1)) []) :=
  (C1_depth_boundary.2.2 fsC1 (Finder.new "root") 1 1 (vpath "root/a") []
    [vpath "root/a/b", vpath "root/a/g.txt"] (by decide) (by decide) rfl).1 (by decide)

/-- C2 counterexample: the claim says a pattern that fails to compile is
returned to the caller as an explicit failure result; in the code
`matches_regex` calls `Regex::new(pattern).unwrap()`, so on a pattern that
fails to compile it panics — the outcome is `panicked`, not an `err`
result (`isErr` is `false`). -/
theorem C2_invalid_pattern_counterexample :
    (Finder.new "root").matches_regex "(" (fun _ => none) = Outcome.panicked ∧
    ((Finder.new "root").matches_regex "(" (fun _ => none)).isErr = false :=
  ⟨rfl, rfl⟩

/-- C2 amended: for every pattern that fails to compile, `matches_regex`
fails eagerly at configuration time — its result does not depend on any
filesystem, so the misconfiguration is caught before any filesystem work —
but it fails by panicking on the `unwrap`, not by returning an explicit
failure result to the caller. -/
theorem C2_invalid_pattern_amended :
    ∀ (compile : String → Option Regex) (F : Finder) (pat : String),
      compile pat = none →
      F.matches_regex pat compile = Outcome.panicked ∧
      (F.matches_regex pat compile).isErr = false := by
  intro compile F pat h
  constructor
  · simp [Finder.matches_regex, h]
  · simp [Finder.matches_regex, h, Outcome.isErr]

/-- Witness for the amended C2 at a concrete failing pattern. -/
theorem C2_invalid_pattern_witness :
    (Finder.new "x").matches_regex "[" (fun _ => none) = Outcome.panicked ∧
    ((Finder.new "x").matches_regex "[" (fun _ => none)).isErr = false :=
  C2_invalid_pattern_amended (fun _ => none) (Finder.new "x") "[" rfl

/-- C3: for every root path that does not exist on the filesystem, both
`find` and `print_find` return the `NotFound` error, for every depth and
every predicate chain; the error result carries no partial list, and the
result is the same for every filesystem agreeing on the existence check —
no directory enumeration is attempted. -/
theorem C3_root_not_found (fs : FileSystem) (F : Finder) (depth : Nat)
    (h : fs.pathExists ⟨F.directory, true⟩ = false) :
    Finder.find fs F depth =
      .err (.notFound ("Root directory " ++ F.directory ++ " does not exists.")) ∧
    Finder.print_find fs F depth =
      .err (.notFound ("Root directory " ++ F.directory ++ " does not exists.")) := by
  constructor
  · simp [Finder.find, h]
  · simp [Finder.print_find, h]

/-- Witness for C3: the §8 scenario `find` on `missing_dir`. -/
theorem C3_root_not_found_witness :
    Finder.find fsEmpty (Finder.new "missing_dir") 0 =
      .err (.notFound ("Root directory " ++ "missing_dir" ++ " does not exists.")) ∧
    Finder.print_find fsEmpty (Finder.new "missing_dir") 0 =
      .err (.notFound ("Root directory " ++ "missing_dir" ++ " does not exists.")) :=
  C3_root_not_found fsEmpty (Finder.new "missing_dir") 0 rfl

/-- C4: a failing directory-children enumeration aborts the whole
traversal.  Generally, a level that dequeues a directory whose `read_dir`
fails stops immediately with that error.  Concretely, on `fsC4` at depth 1
the file `root/good.txt` is collected before `root/bad` fails, yet both
`find` and `print_find` return only the error — the error result carries
no partial list.  Per-file metadata failures inside predicates do not
abort: at depth 0 with a size predicate, the stat failure on
`root/good.txt` merely drops that file and the traversal completes. -/
theorem C4_abort_on_enumeration_error :
    (∀ (fs : FileSystem) (F : Finder) (d : OsPath) (rest : List OsPath) (msg : String),
      fs.is_dir d = true → fs.read_dir d = .error msg →
      levelStep fs F true (d :: rest) = .err (.ioErr msg)) ∧
    (Finder.find fsC4 (Finder.new "root") 1 = .err (.ioErr "permission denied")) ∧
    (Finder.print_find fsC4 (Finder.new "root") 1 = .err (.ioErr "permission denied")) ∧
    (Finder.find fsC4 ((Finder.new "root").size_less_than_or_eq fsC4 100) 0 =
      .ok ["root/late.txt"]) := by
  refine ⟨?_, by decide, by decide, by decide⟩
  intro fs F d rest msg hdir herr
  simp only [levelStep, hdir, Bool.and_self, if_true, herr]

/-- Witness for C4's general clause: the unreadable directory `root/bad`
aborts its level with the permission error. -/
theorem C4_abort_on_enumeration_error_witness :
    levelStep fsC4 (Finder.new "root") true [vpath "root/bad"] =
      .err (.ioErr "permission denied") :=
  C4_abort_on_enumeration_error.1 fsC4 (Finder.new "root") (vpath "root/bad") []
    "permission denied" (by decide) rfl

/-- C5: the predicate chain is a pure conjunction.  `meets_filter_criteria`
is the AND over all registered predicates; an empty chain accepts every
path; chaining `P` then `Q` gives the same `find` result as chaining `Q`
then `P`; and the files returned under the chain `[P, Q]` are exactly
those returned under `P` alone and under `Q` alone — the intersection. -/
theorem C5_predicate_conjunction :
    (∀ (F : Finder) (s : String),
      F.meets_filter_criteria s = F.filters.all (fun p => p s)) ∧
    (∀ (dir s : String), (Finder.new dir).meets_filter_criteria s = true) ∧
    (∀ (fs : FileSystem) (dir : String) (P Q : String → Bool) (d : Nat),
      Finder.find fs (((Finder.new dir).filter P).filter Q) d =
        Finder.find fs (((Finder.new dir).filter Q).filter P) d) ∧
    (∀ (fs : FileSystem) (dir : String) (P Q : String → Bool) (d : Nat)
      (l lP lQ : List String) (s : String),
      Finder.find fs (((Finder.new dir).filter P).filter Q) d = .ok l →
      Finder.find fs ((Finder.new dir).filter P) d = .ok lP →
      Finder.find fs ((Finder.new dir).filter Q) d = .ok lQ →
      (s ∈ l ↔ s ∈ lP ∧ s ∈ lQ)) := by
  refine ⟨fun F s => rfl, fun dir s => rfl, ?_, ?_⟩
  · intro fs dir P Q d
    rw [find_filter_decomp fs (((Finder.new dir).filter P).filter Q) d,
      find_filter_decomp fs (((Finder.new dir).filter Q).filter P) d]
    have hd1 : (((Finder.new dir).filter P).filter Q).directory = dir := rfl
    have hd2 : (((Finder.new dir).filter Q).filter P).directory = dir := rfl
    rw [hd1, hd2]
    have hfun : (((Finder.new dir).filter P).filter Q).meets_filter_criteria =
        (((Finder.new dir).filter Q).filter P).meets_filter_criteria := by
      funext s
      simp only [Finder.meets_filter_criteria, Finder.filter, Finder.new, List.nil_append,
        List.cons_append, List.all_cons, List.all_nil, Bool.and_true]
      exact Bool.and_comm (P s) (Q s)
    rw [hfun]
  · intro fs dir P Q d l lP lQ s hPQ hP hQ
    rw [find_filter_decomp] at hPQ hP hQ
    have hd1 : (((Finder.new dir).filter P).filter Q).directory = dir := rfl
    have hd2 : ((Finder.new dir).filter P).directory = dir := rfl
    have hd3 : ((Finder.new dir).filter Q).directory = dir := rfl
    rw [hd1] at hPQ
    rw [hd2] at hP
    rw [hd3] at hQ
    cases hbase : Finder.find fs (Finder.new dir) d with
    | ok base =>
      rw [hbase] at hPQ hP hQ
      simp only [Outcome.map, Outcome.ok.injEq] at hPQ hP hQ
      subst hPQ
      subst hP
      subst hQ
      simp only [List.mem_filter, Finder.meets_filter_criteria, Finder.filter, Finder.new,
        List.nil_append, List.cons_append, List.all_cons, List.all_nil, Bool.and_true,
        Bool.and_eq_true]
      tauto
    | err e =>
      rw [hbase] at hPQ
      simp [Outcome.map] at hPQ
    | panicked =>
      rw [hbase] at hPQ
      simp [Outcome.map] at hPQ

/-- Witness for C5's intersection clause on the concrete tree
`r/{xa, x.b, a.c}` with the predicates "contains the letter a" and
"contains a dot": the chained result is exactly the intersection. -/
theorem C5_predicate_conjunction_witness :
    "r/a.c" ∈ ["r/a.c"] ↔
      "r/a.c" ∈ ["r/xa", "r/a.c"] ∧ "r/a.c" ∈ ["r/x.b", "r/a.c"] :=
  C5_predicate_conjunction.2.2.2 fsW "r" (fun s => s.toList.contains 'a')
    (fun s => s.toList.contains '.') 0 ["r/a.c"] ["r/xa", "r/a.c"] ["r/x.b", "r/a.c"]
    "r/a.c" (by decide) (by decide) (by decide)

/-- C6: `print_find` performs the same traversal as `find` on the same
configuration: it succeeds exactly when `find` returns a list, emits one
standard-output line per match in the same discovery order, formatted
`matching file: <path>`, and mirrors `find`'s error or panic otherwise. -/
theorem C6_print_find_equiv :
    ∀ (fs : FileSystem) (F : Finder) (depth : Nat),
      Finder.print_find fs F depth =
        Outcome.map (List.map (fun s => "matching file: " ++ s))
          (Finder.find fs F depth) :=
  print_find_eq_find

/-- C7: size bounds are inclusive and stat failures are absorbed.  The two
builder methods push exactly the `sizePredLe` / `sizePredGe` closures; on
a file whose stat reports exactly `N` bytes both predicates accept with
bound `N`; on a path whose stat fails both predicates return `false` —
being total boolean functions they never raise an error. -/
theorem C7_size_bounds :
    (∀ (fs : FileSystem) (F : Finder) (b : Nat),
      F.size_less_than_or_eq fs b = F.filter (sizePredLe fs b) ∧
      F.size_greater_than_or_eq fs b = F.filter (sizePredGe fs b)) ∧
    (∀ (fs : FileSystem) (s : String) (N : Nat), fs.metadata s = some N →
      sizePredLe fs N s = true ∧ sizePredGe fs N s = true) ∧
    (∀ (fs : FileSystem) (s : String) (N : Nat), fs.metadata s = none →
      sizePredLe fs N s = false ∧ sizePredGe fs N s = false) := by
  refine ⟨fun fs F b => ⟨rfl, rfl⟩, ?_, ?_⟩
  · intro fs s N h
    constructor
    · simp [sizePredLe, h]
    · simp [sizePredGe, h]
  · intro fs s N h
    constructor
    · simp [sizePredLe, h]
    · simp [sizePredGe, h]

/-- Witness for C7: a 5-byte file `a` is accepted by both predicates with
bound 5, and the path `b` whose stat fails is rejected by both. -/
theorem C7_size_bounds_witness :
    (sizePredLe fsC7 5 "a" = true ∧ sizePredGe fsC7 5 "a" = true) ∧
    (sizePredLe fsC7 5 "b" = false ∧ sizePredGe fsC7 5 "b" = false) :=
  ⟨C7_size_bounds.2.1 fsC7 "a" 5 (by decide), C7_size_bounds.2.2 fsC7 "b" 5 (by decide)⟩

/-- C8: the predicate pushed by `matches_regex` tests the compiled pattern
against the file's base name only — two paths with the same base name are
treated identically, whatever the rest of the path — and accepts on a
partial match: it suffices that the pattern matches some contiguous
substring of the base name, not the whole name. -/
theorem C8_regex_scope :
    (∀ (re : Regex) (s t : String), file_name s = file_name t →
      regexFilePred re s = regexFilePred re t) ∧
    (∀ (re : Regex) (s nm sub : String), file_name s = some nm →
      sub ∈ substrings nm → re.matchExact sub = true →
      regexFilePred re s = true) := by
  constructor
  · intro re s t h
    simp only [regexFilePred, h]
  · intro re s nm sub hfn hmem hm
    simp only [regexFilePred, hfn, Regex.is_match, List.any_eq_true]
    exact ⟨sub, hmem, hm⟩

/-- Witness for C8: a pattern whose denotation matches exactly the string
`ib` accepts the path `dir/lib.rs` — `ib` is a proper substring of the
base name `lib.rs`, so a partial match on the base name suffices. -/
theorem C8_regex_scope_witness :
    file_name "dir/lib.rs" = some "lib.rs" ∧
    regexFilePred ⟨fun t => t == "ib"⟩ "dir/lib.rs" = true :=
  ⟨by decide,
    C8_regex_scope.2 ⟨fun t => t == "ib"⟩ "dir/lib.rs" "lib.rs" "ib"
      (by decide) (by decide) (by decide)⟩

/-- C9: on a filesystem whose root directory contains a file whose path is
not valid UTF-8, both terminal operations panic (the `OsString` to
`String` conversion is unwrapped) instead of returning an `err`; and under
the precondition that every file of the filesystem has a valid-UTF-8 path,
the panic branch is unreachable — both operations are total. -/
theorem C9_utf8_panic :
    (Finder.find fsC9 (Finder.new "root") 0 = Outcome.panicked) ∧
    (Finder.print_find fsC9 (Finder.new "root") 0 = Outcome.panicked) ∧
    (∀ (fs : FileSystem) (F : Finder) (depth : Nat),
      (∀ p : OsPath, fs.is_file p = true → p.validUtf8 = true) →
      Finder.find fs F depth ≠ Outcome.panicked ∧
      Finder.print_find fs F depth ≠ Outcome.panicked) := by
  refine ⟨by decide, by decide, ?_⟩
  intro fs F depth hv
  have hfind : Finder.find fs F depth ≠ Outcome.panicked := by
    simp only [Finder.find]
    by_cases h : fs.pathExists ⟨F.directory, true⟩ = true
    · simp only [h, Bool.not_true, Bool.false_eq_true, if_false]
      exact goAux_no_panic fs F depth hv (depth + 1) 0 [⟨F.directory, true⟩]
    · rw [Bool.not_eq_true] at h
      simp only [h, Bool.not_false, if_true]
      intro hcon
      cases hcon
  refine ⟨hfind, ?_⟩
  rw [print_find_eq_find]
  cases hf : Finder.find fs F depth with
  | ok l => intro h; cases h
  | err e => intro h; cases h
  | panicked => exact absurd hf hfind

/-- Witness for C9's totality clause: on the all-UTF-8 filesystem `fsC1`
neither terminal operation can panic. -/
theorem C9_utf8_panic_witness :
    Finder.find fsC1 (Finder.new "root") 0 ≠ Outcome.panicked ∧
    Finder.print_find fsC1 (Finder.new "root") 0 ≠ Outcome.panicked :=
  C9_utf8_panic.2.2 fsC1 (Finder.new "root") 0 (by
    intro p hp
    simp only [fsC1, Bool.and_eq_true] at hp
    exact hp.2)

/-- C10: when the configured root exists but is a regular file rather than
a directory, `find` succeeds at every depth with no error: the result is
exactly `[root]` when the root's path passes the full predicate chain and
`[]` otherwise; nothing is ever enqueued, and the result is independent of
`read_dir`, so no directory enumeration occurs. -/
theorem C10_file_root (fs : FileSystem) (F : Finder) (depth : Nat)
    (hex : fs.pathExists ⟨F.directory, true⟩ = true)
    (hnd : fs.is_dir ⟨F.directory, true⟩ = false)
    (hf : fs.is_file ⟨F.directory, true⟩ = true) :
    Finder.find fs F depth =
      .ok (if F.meets_filter_criteria F.directory then [F.directory] else []) := by
  simp only [Finder.find, hex, Bool.not_true, Bool.false_eq_true, if_false]
  simp only [goAux, levelStep, hnd, hf, Bool.false_and, Bool.false_eq_true, if_false,
    if_true, OsPath.into_string, List.append_nil]

/-- Witness for C10: a root that is the plain file `f.txt` with an empty
chain returns exactly itself, at depth 3, with no error. -/
theorem C10_file_root_witness :
    Finder.find fsC10 (Finder.new "f.txt") 3 =
      .ok (if (Finder.new "f.txt").meets_filter_criteria "f.txt" then ["f.txt"] else []) :=
  C10_file_root fsC10 (Finder.new "f.txt") 3 (by decide) (by decide) (by decide)

end FFind
